import Mathlib

/-!
Verification of the metric-snapshot-to-time-series conversion core of
`prometheus_remote_client_golang`.

The repository contains two Go implementations of the converter
`MetricFamiliesToTimeSeries`:
  * one (in the unnamed source file, embedded below in namespace `part000`)
    fully decomposes Histogram and Summary metrics into `_sum`, `_count`,
    per-bucket and per-quantile points;
  * one (in `cmd/promremotecli/main.go`, embedded in namespace `maingo`)
    collapses every metric into a single point, using the sample sum as the
    value for Histogram and Summary metrics.
Both share the data model (`promremote.Label`, `promremote.Datapoint`,
`promremote.TimeSeries`, and the `dto` protobuf metric snapshot types) and
the helper `FlattenTimeSeriesMap`.

Go `float64` values are embedded as `GoFloat`: an exact rational payload for
finite values together with the IEEE-754 special values.  The conversion code
never computes with floats (values only flow from input to output, and
`uint64` sample counts are injected), so the exact-rational abstraction is
faithful for every property proved here; the one formatting fact the proofs
rely on is that Go's `fmt.Sprintf` with the `%g` verb renders positive
infinity as `"+Inf"`, which `goFormatG` reproduces.

The Go `map[string][]promremote.TimeSeries` is embedded as an association
list in key-insertion order with last-write-wins insertion (`mapInsert`),
and map iteration is modelled by quantifying over arbitrary association
lists where iteration order matters (`FlattenTimeSeriesMap`).
-/

namespace PromRemote

/-- Embedding of Go `float64`: an exact rational for finite values plus the
IEEE-754 special values.  The converter only moves values around, so no
rounding behaviour needs to be modelled. -/
inductive GoFloat where
  | finite (q : ℚ)
  | posInf
  | negInf
  | nan
deriving DecidableEq, Repr

/-- Go `float64(c)` applied to a `uint64` sample count.  The conversion code
applies it only to bucket/sample counts; the exact embedding abstracts the
rounding Go performs above `2^53`, which no claim inspects. -/
def uint64ToFloat64 (c : Nat) : GoFloat := .finite (c : ℚ)

/-- Rendering of a `GoFloat` by Go's `fmt.Sprintf` `%g` verb, as used for the
`le` and `quantile` label values.  The special values match Go's output
exactly; the finite-value branch abstracts Go's shortest round-trip decimal
rendering (no theorem below inspects it beyond being a function of the
value). -/
def goFormatG : GoFloat → String
  | .posInf => "+Inf"
  | .negInf => "-Inf"
  | .nan => "NaN"
  | .finite q => toString q

/-- `promremote.Label`. -/
structure Label where
  name : String
  value : String
deriving DecidableEq, Repr

/-- `promremote.Datapoint`.  The `time.Time` timestamp is embedded as the
number of nanoseconds since the Unix epoch (the instant `time.Unix(0, ns)`
denotes). -/
structure Datapoint where
  timestamp : ℤ
  value : GoFloat
deriving DecidableEq, Repr

/-- `promremote.TimeSeries`. -/
structure TimeSeries where
  labels : List Label
  datapoint : Datapoint
deriving DecidableEq, Repr

/-- `dto.LabelPair` (proto getters `GetName`/`GetValue`). -/
structure LabelPair where
  name : String
  value : String
deriving DecidableEq, Repr

/-- One bucket of `dto.Histogram` (`GetUpperBound`, `GetCumulativeCount`). -/
structure Bucket where
  upperBound : GoFloat
  cumulativeCount : Nat
deriving DecidableEq, Repr

/-- One quantile of `dto.Summary` (`GetQuantile`, `GetValue`). -/
structure Quantile where
  quantile : GoFloat
  value : GoFloat
deriving DecidableEq, Repr

/-- `dto.Histogram`. -/
structure Histogram where
  sampleSum : GoFloat
  sampleCount : Nat
  bucket : List Bucket
deriving DecidableEq, Repr

/-- `dto.Summary`. -/
structure Summary where
  sampleSum : GoFloat
  sampleCount : Nat
  quantile : List Quantile
deriving DecidableEq, Repr

/-- `dto.Metric`: label pairs, millisecond timestamp, and at most one typed
payload per kind (`GetCounter` etc. return `nil` when absent; the Go switch
tests the kinds in the order counter, gauge, histogram, summary).  A metric
with no recognised payload (e.g. `Untyped`) has all four fields `none`. -/
structure Metric where
  label : List LabelPair
  timestampMs : ℤ
  counter : Option GoFloat
  gauge : Option GoFloat
  histogram : Option Histogram
  summary : Option Summary
deriving DecidableEq, Repr

/-- `dto.MetricFamily` (`GetName`, `Metric`). -/
structure MetricFamily where
  name : String
  metric : List Metric
deriving DecidableEq, Repr

/-- Wrap an unbounded integer into Go's `int64` range, as Go multiplication
does on overflow. -/
def int64wrap (x : ℤ) : ℤ := (x + 2 ^ 63) % 2 ^ 64 - 2 ^ 63

/-- `time.Unix(0, ms*int64(time.Millisecond))`: the instant, in nanoseconds
since the epoch, both converters stamp on every produced point.  The
multiplication is Go `int64` arithmetic, hence the wrap. -/
def unixNanos (tsMs : ℤ) : ℤ := int64wrap (tsMs * 1000000)

/-- The per-metric label copy both converters start from: each
`dto.LabelPair` becomes a `promremote.Label`. -/
def toLabels (ps : List LabelPair) : List Label :=
  ps.map (fun p => { name := p.name, value := p.value })

/-- Go map assignment `result[k] = v` on the association-list embedding of
`map[string][]promremote.TimeSeries`: replace the binding of `k` if present,
otherwise append it. -/
def mapInsert (k : String) (v : List TimeSeries) :
    List (String × List TimeSeries) → List (String × List TimeSeries)
  | [] => [(k, v)]
  | e :: rest => if e.1 = k then (k, v) :: rest else e :: mapInsert k v rest

/-- Go map read `m[k]` on the association-list embedding. -/
def mapLookup (k : String) : List (String × List TimeSeries) → Option (List TimeSeries)
  | [] => none
  | e :: rest => if e.1 = k then some e.2 else mapLookup k rest

/-- `FlattenTimeSeriesMap`: appends every family's series slice, in the
iteration order given by the association list (Go map iteration order is
arbitrary, so theorems about it quantify over every list). -/
def FlattenTimeSeriesMap (timeSeriesMap : List (String × List TimeSeries)) :
    List TimeSeries :=
  timeSeriesMap.foldl (fun result e => result ++ e.2) []

end PromRemote

namespace part000

open PromRemote

/-- The body of the inner `for _, metric := range metricFamily.Metric` loop of
`MetricFamiliesToTimeSeries` in the unnamed source file: the series appended
for one metric.  The switch tries counter, gauge, histogram, summary in order;
an unmatched metric appends nothing. -/
def metricSeries (metricName : String) (m : Metric) : List TimeSeries :=
  let labels := toLabels m.label
  let timestamp := unixNanos m.timestampMs
  match m.counter with
  | some v =>
    [{ labels := labels ++ [{ name := "__name__", value := metricName }],
       datapoint := { timestamp := timestamp, value := v } }]
  | none =>
  match m.gauge with
  | some v =>
    [{ labels := labels ++ [{ name := "__name__", value := metricName }],
       datapoint := { timestamp := timestamp, value := v } }]
  | none =>
  match m.histogram with
  | some h =>
    [{ labels := labels ++ [{ name := "__name__", value := metricName ++ "_sum" }],
       datapoint := { timestamp := timestamp, value := h.sampleSum } },
     { labels := labels ++ [{ name := "__name__", value := metricName ++ "_count" }],
       datapoint := { timestamp := timestamp, value := uint64ToFloat64 h.sampleCount } }]
    ++ h.bucket.map (fun b =>
      { labels := labels ++
          [{ name := "le", value := goFormatG b.upperBound },
           { name := "__name__", value := metricName ++ "_bucket" }],
        datapoint := { timestamp := timestamp, value := uint64ToFloat64 b.cumulativeCount } })
  | none =>
  match m.summary with
  | some s =>
    [{ labels := labels ++ [{ name := "__name__", value := metricName ++ "_sum" }],
       datapoint := { timestamp := timestamp, value := s.sampleSum } },
     { labels := labels ++ [{ name := "__name__", value := metricName ++ "_count" }],
       datapoint := { timestamp := timestamp, value := uint64ToFloat64 s.sampleCount } }]
    ++ s.quantile.map (fun q =>
      { labels := labels ++
          [{ name := "quantile", value := goFormatG q.quantile },
           { name := "__name__", value := metricName }],
        datapoint := { timestamp := timestamp, value := q.value } })
  | none => []

/-- The `series` slice built for one family: per-metric series appended in
metric order. -/
def familySeries (metricName : String) (metrics : List Metric) : List TimeSeries :=
  (metrics.map (metricSeries metricName)).flatten

/-- `MetricFamiliesToTimeSeries` of the unnamed source file: for each family,
in order, assign its series under its name. -/
def MetricFamiliesToTimeSeries (metricFamilies : List MetricFamily) :
    List (String × List TimeSeries) :=
  metricFamilies.foldl
    (fun result mf => mapInsert mf.name (familySeries mf.name mf.metric) result) []

end part000

namespace maingo

open PromRemote

/-- The `value` computed by the collapsed converter in
`cmd/promremotecli/main.go`: first matching payload's scalar, the sample sum
for histograms and summaries, `0.0` when nothing matches. -/
def metricValue (m : Metric) : GoFloat :=
  match m.counter with
  | some v => v
  | none =>
  match m.gauge with
  | some v => v
  | none =>
  match m.histogram with
  | some h => h.sampleSum
  | none =>
  match m.summary with
  | some s => s.sampleSum
  | none => .finite 0

/-- The single series `main.go` appends for one metric: metric labels plus
`__name__`, collapsed value, millisecond timestamp. -/
def metricSeries (metricName : String) (m : Metric) : List TimeSeries :=
  [{ labels := toLabels m.label ++ [{ name := "__name__", value := metricName }],
     datapoint := { timestamp := unixNanos m.timestampMs, value := metricValue m } }]

/-- The `series` slice built for one family by `main.go`. -/
def familySeries (metricName : String) (metrics : List Metric) : List TimeSeries :=
  (metrics.map (metricSeries metricName)).flatten

/-- `MetricFamiliesToTimeSeries` of `cmd/promremotecli/main.go`. -/
def MetricFamiliesToTimeSeries (metricFamilies : List MetricFamily) :
    List (String × List TimeSeries) :=
  metricFamilies.foldl
    (fun result mf => mapInsert mf.name (familySeries mf.name mf.metric) result) []

end maingo

namespace PromRemote

/-! ### Association-list (Go map) lemmas -/

theorem mapLookup_mapInsert_self (k : String) (v : List TimeSeries)
    (l : List (String × List TimeSeries)) :
    mapLookup k (mapInsert k v l) = some v := by
  induction l with
  | nil => simp [mapInsert, mapLookup]
  | cons e rest ih =>
    by_cases h : e.1 = k
    · simp [mapInsert, mapLookup, h]
    · simp [mapInsert, mapLookup, h, ih]

theorem mapLookup_mapInsert_ne (k k' : String) (v : List TimeSeries)
    (l : List (String × List TimeSeries)) (hne : k' ≠ k) :
    mapLookup k (mapInsert k' v l) = mapLookup k l := by
  induction l with
  | nil => simp [mapInsert, mapLookup, hne]
  | cons e rest ih =>
    by_cases h : e.1 = k'
    · simp [mapInsert, mapLookup, h, hne]
    · simp only [mapInsert, h, if_false, mapLookup]
      by_cases h2 : e.1 = k
      · simp [h2]
      · simp [h2, ih]

theorem mem_mapInsert (k : String) (v : List TimeSeries)
    (l : List (String × List TimeSeries)) (e : String × List TimeSeries)
    (he : e ∈ mapInsert k v l) : e = (k, v) ∨ e ∈ l := by
  induction l with
  | nil => simpa [mapInsert] using he
  | cons e0 rest ih =>
    by_cases h : e0.1 = k
    · simp only [mapInsert, h, if_true] at he
      rcases List.mem_cons.mp he with h1 | h1
      · exact Or.inl h1
      · exact Or.inr (List.mem_cons_of_mem _ h1)
    · simp only [mapInsert, h, if_false] at he
      rcases List.mem_cons.mp he with h1 | h1
      · exact Or.inr (h1 ▸ List.mem_cons_self _ _)
      · rcases ih h1 with h2 | h2
        · exact Or.inl h2
        · exact Or.inr (List.mem_cons_of_mem _ h2)

/-- The family bound to a name in the result map: Go map writes are
last-write-wins, so it is the last family with that name in the snapshot. -/
def lastNamed (n : String) : List MetricFamily → Option MetricFamily
  | [] => none
  | f :: rest =>
    match lastNamed n rest with
    | some g => some g
    | none => if f.name = n then some f else none

theorem lastNamed_name (n : String) (fams : List MetricFamily) (g : MetricFamily)
    (hg : lastNamed n fams = some g) : g.name = n := by
  induction fams with
  | nil => simp [lastNamed] at hg
  | cons f rest ih =>
    simp only [lastNamed] at hg
    cases hl : lastNamed n rest with
    | some g0 =>
      rw [hl] at hg
      exact ih (hl.trans (by injection hg with h1; rw [h1]))
    | none =>
      rw [hl] at hg
      by_cases hf : f.name = n
      · simp [hf] at hg
        rw [← hg]
        exact hf
      · simp [hf] at hg

theorem lastNamed_isSome_of_mem (fams : List MetricFamily) (f : MetricFamily)
    (hf : f ∈ fams) : ∃ g, lastNamed f.name fams = some g := by
  induction fams with
  | nil => cases hf
  | cons f0 rest ih =>
    rcases List.mem_cons.mp hf with h | h
    · subst h
      cases hl : lastNamed f.name rest with
      | some g => exact ⟨g, by simp [lastNamed, hl]⟩
      | none => exact ⟨f, by simp [lastNamed, hl]⟩
    · rcases ih h with ⟨g, hg⟩
      exact ⟨g, by simp [lastNamed, hg]⟩

theorem mapLookup_foldl_part000 (n : String) (fams : List MetricFamily)
    (acc : List (String × List TimeSeries)) :
    mapLookup n (fams.foldl
        (fun result mf => mapInsert mf.name (part000.familySeries mf.name mf.metric) result)
        acc) =
      match lastNamed n fams with
      | some g => some (part000.familySeries g.name g.metric)
      | none => mapLookup n acc := by
  induction fams generalizing acc with
  | nil => simp [lastNamed]
  | cons f rest ih =>
    simp only [List.foldl_cons]
    rw [ih]
    cases hl : lastNamed n rest with
    | some g => simp [lastNamed, hl]
    | none =>
      simp only [lastNamed, hl]
      by_cases hf : f.name = n
      · simp [hf, mapLookup_mapInsert_self]
      · simp [hf, mapLookup_mapInsert_ne n f.name _ acc hf]

theorem mem_foldl_part000 (fams : List MetricFamily)
    (acc : List (String × List TimeSeries)) (e : String × List TimeSeries)
    (he : e ∈ fams.foldl
        (fun result mf => mapInsert mf.name (part000.familySeries mf.name mf.metric) result)
        acc) :
    e ∈ acc ∨ ∃ f, f ∈ fams ∧ e = (f.name, part000.familySeries f.name f.metric) := by
  induction fams generalizing acc with
  | nil => exact Or.inl (by simpa using he)
  | cons f rest ih =>
    simp only [List.foldl_cons] at he
    rcases ih _ he with hacc | ⟨g, hg, hge⟩
    · rcases mem_mapInsert _ _ _ _ hacc with h1 | h1
      · exact Or.inr ⟨f, List.mem_cons_self _ _, h1⟩
      · exact Or.inl h1
    · exact Or.inr ⟨g, List.mem_cons_of_mem _ hg, hge⟩

/-! ### Flatten lemmas -/

theorem flatten_foldl_eq (m : List (String × List TimeSeries))
    (init : List TimeSeries) :
    m.foldl (fun result e => result ++ e.2) init =
      init ++ (m.map (fun e => e.2)).flatten := by
  induction m generalizing init with
  | nil => simp
  | cons e rest ih => simp [ih, List.append_assoc]

theorem FlattenTimeSeriesMap_eq (m : List (String × List TimeSeries)) :
    FlattenTimeSeriesMap m = (m.map (fun e => e.2)).flatten := by
  simpa using flatten_foldl_eq m []

/-! ### Per-metric shape lemma for the decomposed converter -/

theorem part000_metricSeries_shape (n : String) (m : Metric) (ts : TimeSeries)
    (hts : ts ∈ part000.metricSeries n m) :
    ts.datapoint.timestamp = unixNanos m.timestampMs ∧
    ∃ extra : List Label, ts.labels = toLabels m.label ++ extra ∧
      (extra.map Label.name = ["__name__"] ∨
       extra.map Label.name = ["le", "__name__"] ∨
       extra.map Label.name = ["quantile", "__name__"]) := by
  rcases hc : m.counter with _ | v
  · rcases hg : m.gauge with _ | v
    · rcases hh : m.histogram with _ | h
      · rcases hs : m.summary with _ | s
        · simp [part000.metricSeries, hc, hg, hh, hs] at hts
        · simp only [part000.metricSeries, hc, hg, hh, hs, List.mem_append,
            List.mem_cons, List.not_mem_nil, or_false, List.mem_map] at hts
          rcases hts with (h1 | h1) | ⟨q, hq, h1⟩ <;> subst h1
          · exact ⟨rfl, [{ name := "__name__", value := n ++ "_sum" }], rfl, Or.inl rfl⟩
          · exact ⟨rfl, [{ name := "__name__", value := n ++ "_count" }], rfl, Or.inl rfl⟩
          · exact ⟨rfl, [{ name := "quantile", value := goFormatG q.quantile },
                        { name := "__name__", value := n }], rfl, Or.inr (Or.inr rfl)⟩
      · simp only [part000.metricSeries, hc, hg, hh, List.mem_append,
          List.mem_cons, List.not_mem_nil, or_false, List.mem_map] at hts
        rcases hts with (h1 | h1) | ⟨b, hb, h1⟩ <;> subst h1
        · exact ⟨rfl, [{ name := "__name__", value := n ++ "_sum" }], rfl, Or.inl rfl⟩
        · exact ⟨rfl, [{ name := "__name__", value := n ++ "_count" }], rfl, Or.inl rfl⟩
        · exact ⟨rfl, [{ name := "le", value := goFormatG b.upperBound },
                      { name := "__name__", value := n ++ "_bucket" }], rfl, Or.inr (Or.inl rfl)⟩
    · simp only [part000.metricSeries, hc, hg, List.mem_cons, List.not_mem_nil,
        or_false] at hts
      subst hts
      exact ⟨rfl, [{ name := "__name__", value := n }], rfl, Or.inl rfl⟩
  · simp only [part000.metricSeries, hc, List.mem_cons, List.not_mem_nil,
      or_false] at hts
    subst hts
    exact ⟨rfl, [{ name := "__name__", value := n }], rfl, Or.inl rfl⟩

theorem maingo_metricSeries_timestamp (n : String) (m : Metric) (ts : TimeSeries)
    (hts : ts ∈ maingo.metricSeries n m) :
    ts.datapoint.timestamp = unixNanos m.timestampMs := by
  simp only [maingo.metricSeries, List.mem_cons, List.not_mem_nil, or_false] at hts
  subst hts
  rfl

/-- C3: a Counter or Gauge metric (the switch matches counter first, then
gauge) converts to exactly one point, whose label set is the metric's label
list plus a single `__name__ = familyName` label, and whose value is the
counter/gauge value verbatim; both converter variants agree on this point. -/
theorem counter_gauge_single_point (metricName : String) (m : Metric) (v : GoFloat)
    (hkind : m.counter = some v ∨ (m.counter = none ∧ m.gauge = some v)) :
    part000.metricSeries metricName m =
      [{ labels := toLabels m.label ++ [{ name := "__name__", value := metricName }],
         datapoint := { timestamp := unixNanos m.timestampMs, value := v } }] ∧
    maingo.metricSeries metricName m =
      [{ labels := toLabels m.label ++ [{ name := "__name__", value := metricName }],
         datapoint := { timestamp := unixNanos m.timestampMs, value := v } }] := by
  rcases hkind with hc | ⟨hc, hg⟩
  · exact ⟨by simp [part000.metricSeries, hc],
           by simp [maingo.metricSeries, maingo.metricValue, hc]⟩
  · exact ⟨by simp [part000.metricSeries, hc, hg],
           by simp [maingo.metricSeries, maingo.metricValue, hc, hg]⟩

/-- Witness for C3: a concrete counter metric with one label and value 3. -/
theorem counter_gauge_single_point_witness :
    part000.metricSeries "requests_total"
      { label := [{ name := "job", value := "api" }], timestampMs := 7,
        counter := some (.finite 3), gauge := none, histogram := none,
        summary := none } =
      [{ labels := [{ name := "job", value := "api" },
                    { name := "__name__", value := "requests_total" }],
         datapoint := { timestamp := unixNanos 7, value := .finite 3 } }] := by
  have h := counter_gauge_single_point "requests_total"
    { label := [{ name := "job", value := "api" }], timestampMs := 7,
      counter := some (.finite 3), gauge := none, histogram := none,
      summary := none } (.finite 3) (Or.inl rfl)
  simpa [toLabels] using h.1

/-- C6: for every iteration order of the name-to-points map, Flatten returns
a sequence whose length is the sum of the per-family sequence lengths, and
each family's sequence occurs in the output as a sublist, so the relative
order of a family's points is preserved. -/
theorem flatten_length_and_order (m : List (String × List TimeSeries)) :
    (FlattenTimeSeriesMap m).length = (m.map (fun e => e.2.length)).sum ∧
    ∀ e ∈ m, e.2.Sublist (FlattenTimeSeriesMap m) := by
  rw [FlattenTimeSeriesMap_eq]
  constructor
  · rw [List.length_flatten, List.map_map]
    rfl
  · intro e he
    exact List.sublist_flatten_of_mem (List.mem_map_of_mem _ he)

/-- Witness for C6: a two-family map, checking the second family's sequence
is a sublist of the flattened output. -/
theorem flatten_length_and_order_witness :
    [{ labels := [], datapoint := { timestamp := 0, value := .finite 2 } },
     { labels := [], datapoint := { timestamp := 0, value := .finite 3 } }].Sublist
      (FlattenTimeSeriesMap
        [("a", [{ labels := [], datapoint := { timestamp := 0, value := .finite 1 } }]),
         ("b", [{ labels := [], datapoint := { timestamp := 0, value := .finite 2 } },
                { labels := [], datapoint := { timestamp := 0, value := .finite 3 } }])]) :=
  (flatten_length_and_order
      [("a", [{ labels := [], datapoint := { timestamp := 0, value := .finite 1 } }]),
       ("b", [{ labels := [], datapoint := { timestamp := 0, value := .finite 2 } },
              { labels := [], datapoint := { timestamp := 0, value := .finite 3 } }])]).2
    ("b", [{ labels := [], datapoint := { timestamp := 0, value := .finite 2 } },
           { labels := [], datapoint := { timestamp := 0, value := .finite 3 } }])
    (by simp)

/-- C7: Convert is deterministic.  The embedding is a pure function of the
snapshot — the Go loop reads only its argument and fresh locals, and the map
contents (keys and per-key sequences) do not depend on iteration order — so
two invocations on the same snapshot value yield structurally identical
mappings, key by key. -/
theorem convert_deterministic (fams : List MetricFamily) :
    part000.MetricFamiliesToTimeSeries fams = part000.MetricFamiliesToTimeSeries fams ∧
    ∀ n : String, mapLookup n (part000.MetricFamiliesToTimeSeries fams) =
      mapLookup n (part000.MetricFamiliesToTimeSeries fams) :=
  ⟨rfl, fun _ => rfl⟩

/-- C9: every point derived from a metric is stamped with the metric's
millisecond timestamp converted to an absolute instant
(`time.Unix(0, ms*int64(time.Millisecond))`), with millisecond 0 mapping to
the epoch instant, in both converter variants; and the concrete Counter
family `requests_total` with no extra labels, value 3 and millisecond
timestamp 0 converts to exactly one point with labels
`[{__name__, requests_total}]`, value 3, epoch timestamp. -/
theorem point_timestamps (n : String) (m : Metric) :
    (∀ ts ∈ part000.metricSeries n m,
        ts.datapoint.timestamp = unixNanos m.timestampMs) ∧
    (∀ ts ∈ maingo.metricSeries n m,
        ts.datapoint.timestamp = unixNanos m.timestampMs) ∧
    unixNanos 0 = 0 ∧
    part000.MetricFamiliesToTimeSeries
        [{ name := "requests_total",
           metric := [{ label := [], timestampMs := 0, counter := some (.finite 3),
                        gauge := none, histogram := none, summary := none }] }] =
      [("requests_total",
        [{ labels := [{ name := "__name__", value := "requests_total" }],
           datapoint := { timestamp := 0, value := .finite 3 } }])] := by
  refine ⟨?_, ?_, by decide, by rfl⟩
  · intro ts hts
    exact (part000_metricSeries_shape n m ts hts).1
  · intro ts hts
    exact maingo_metricSeries_timestamp n m ts hts

/-- Witness for C9: the epoch-timestamp fact evaluated at the concrete
counter metric of the scenario. -/
theorem point_timestamps_witness :
    part000.metricSeries "requests_total"
        { label := [], timestampMs := 0, counter := some (.finite 3),
          gauge := none, histogram := none, summary := none } =
      [{ labels := [{ name := "__name__", value := "requests_total" }],
         datapoint := { timestamp := 0, value := .finite 3 } }] ∧
    ({ labels := [{ name := "__name__", value := "requests_total" }],
       datapoint := { timestamp := 0, value := .finite 3 } } : TimeSeries).datapoint.timestamp =
      unixNanos 0 := by
  constructor
  · decide
  · exact (point_timestamps "requests_total"
      { label := [], timestampMs := 0, counter := some (.finite 3),
        gauge := none, histogram := none, summary := none }).1
      { labels := [{ name := "__name__", value := "requests_total" }],
        datapoint := { timestamp := 0, value := .finite 3 } }
      (by decide)

theorem metricSeries_eq_of_counter_gauge (n : String) (m : Metric)
    (hm : m.counter.isSome ∨ m.gauge.isSome) :
    maingo.metricSeries n m = part000.metricSeries n m := by
  rcases hc : m.counter with _ | v
  · rcases hg : m.gauge with _ | v
    · rw [hc] at hm
      rw [hg] at hm
      simp at hm
    · simp [maingo.metricSeries, maingo.metricValue, part000.metricSeries, hc, hg]
  · simp [maingo.metricSeries, maingo.metricValue, part000.metricSeries, hc]

/-- C10: on snapshots whose metrics are all Counter or Gauge, the collapsed
converter of `main.go` and the decomposed converter of the unnamed source
file produce structurally identical name-to-points mappings; on a snapshot
containing a Histogram (or Summary) metric their outputs differ. -/
theorem variant_equivalence :
    (∀ fams : List MetricFamily,
        (∀ f ∈ fams, ∀ m ∈ f.metric, m.counter.isSome ∨ m.gauge.isSome) →
        maingo.MetricFamiliesToTimeSeries fams = part000.MetricFamiliesToTimeSeries fams) ∧
    maingo.MetricFamiliesToTimeSeries
        [{ name := "latency_ms",
           metric := [{ label := [], timestampMs := 0, counter := none, gauge := none,
                        histogram := some { sampleSum := .finite 6000, sampleCount := 3,
                                            bucket := [] },
                        summary := none }] }] ≠
      part000.MetricFamiliesToTimeSeries
        [{ name := "latency_ms",
           metric := [{ label := [], timestampMs := 0, counter := none, gauge := none,
                        histogram := some { sampleSum := .finite 6000, sampleCount := 3,
                                            bucket := [] },
                        summary := none }] }] := by
  constructor
  · intro fams hfams
    unfold maingo.MetricFamiliesToTimeSeries part000.MetricFamiliesToTimeSeries
    have key : ∀ fs : List MetricFamily,
        (∀ f ∈ fs, ∀ m ∈ f.metric, m.counter.isSome ∨ m.gauge.isSome) →
        ∀ acc : List (String × List TimeSeries),
          fs.foldl (fun result mf =>
            mapInsert mf.name (maingo.familySeries mf.name mf.metric) result) acc =
          fs.foldl (fun result mf =>
            mapInsert mf.name (part000.familySeries mf.name mf.metric) result) acc := by
      intro fs
      induction fs with
      | nil => intro _ acc; rfl
      | cons f rest ih =>
        intro hyp acc
        simp only [List.foldl_cons]
        have hfam : maingo.familySeries f.name f.metric =
            part000.familySeries f.name f.metric := by
          unfold maingo.familySeries part000.familySeries
          congr 1
          exact List.map_congr_left (fun mm hmm =>
            metricSeries_eq_of_counter_gauge f.name mm
              (hyp f (List.mem_cons_self _ _) mm hmm))
        rw [hfam]
        exact ih (fun g hg mm hmm => hyp g (List.mem_cons_of_mem _ hg) mm hmm) _
    exact key fams hfams []
  · decide

/-- Witness for C10: on a concrete counter-only snapshot the two converters
agree. -/
theorem variant_equivalence_witness :
    maingo.MetricFamiliesToTimeSeries
        [{ name := "requests_total",
           metric := [{ label := [], timestampMs := 0, counter := some (.finite 3),
                        gauge := none, histogram := none, summary := none }] }] =
      part000.MetricFamiliesToTimeSeries
        [{ name := "requests_total",
           metric := [{ label := [], timestampMs := 0, counter := some (.finite 3),
                        gauge := none, histogram := none, summary := none }] }] :=
  variant_equivalence.1
    [{ name := "requests_total",
       metric := [{ label := [], timestampMs := 0, counter := some (.finite 3),
                    gauge := none, histogram := none, summary := none }] }]
    (by decide)

/-- C1: a Histogram metric with sample sum S, sample count C and a bucket
list converts to exactly `2 + len(buckets)` points: first the `_sum` point
with value S, then the `_count` point with value `float64(C)`, then one
`_bucket` point per bucket in snapshot order, each carrying the extra `le`
label with the formatted upper bound and the cumulative count as value; a
bucket whose upper bound is `+Inf` (the final one, by the snapshot
invariant) has its `le` label formatted as `"+Inf"`. -/
theorem histogram_decomposition (metricName : String) (m : Metric) (h : Histogram)
    (hc : m.counter = none) (hg : m.gauge = none) (hh : m.histogram = some h) :
    part000.metricSeries metricName m =
      [{ labels := toLabels m.label ++
           [{ name := "__name__", value := metricName ++ "_sum" }],
         datapoint := { timestamp := unixNanos m.timestampMs, value := h.sampleSum } },
       { labels := toLabels m.label ++
           [{ name := "__name__", value := metricName ++ "_count" }],
         datapoint := { timestamp := unixNanos m.timestampMs,
                        value := uint64ToFloat64 h.sampleCount } }]
      ++ h.bucket.map (fun b =>
        { labels := toLabels m.label ++
            [{ name := "le", value := goFormatG b.upperBound },
             { name := "__name__", value := metricName ++ "_bucket" }],
          datapoint := { timestamp := unixNanos m.timestampMs,
                         value := uint64ToFloat64 b.cumulativeCount } }) ∧
    (part000.metricSeries metricName m).length = 2 + h.bucket.length ∧
    (∀ b ∈ h.bucket, b.upperBound = GoFloat.posInf →
       goFormatG b.upperBound = "+Inf") := by
  have heq : part000.metricSeries metricName m =
      [{ labels := toLabels m.label ++
           [{ name := "__name__", value := metricName ++ "_sum" }],
         datapoint := { timestamp := unixNanos m.timestampMs, value := h.sampleSum } },
       { labels := toLabels m.label ++
           [{ name := "__name__", value := metricName ++ "_count" }],
         datapoint := { timestamp := unixNanos m.timestampMs,
                        value := uint64ToFloat64 h.sampleCount } }]
      ++ h.bucket.map (fun b =>
        { labels := toLabels m.label ++
            [{ name := "le", value := goFormatG b.upperBound },
             { name := "__name__", value := metricName ++ "_bucket" }],
          datapoint := { timestamp := unixNanos m.timestampMs,
                         value := uint64ToFloat64 b.cumulativeCount } }) := by
    simp [part000.metricSeries, hc, hg, hh]
  refine ⟨heq, ?_, ?_⟩
  · rw [heq]
    simp
    omega
  · intro b _ hb
    rw [hb]
    rfl

/-- Witness for C1: the `latency_ms` histogram with sample sum 6000, sample
count 3 and buckets (500,1), (1000,2), (+Inf,3) yields 2 + 3 points. -/
theorem histogram_decomposition_witness :
    (part000.metricSeries "latency_ms"
        { label := [], timestampMs := 0, counter := none, gauge := none,
          histogram := some { sampleSum := .finite 6000, sampleCount := 3,
                              bucket := [{ upperBound := .finite 500, cumulativeCount := 1 },
                                         { upperBound := .finite 1000, cumulativeCount := 2 },
                                         { upperBound := .posInf, cumulativeCount := 3 }] },
          summary := none }).length = 2 + 3 :=
  (histogram_decomposition "latency_ms"
    { label := [], timestampMs := 0, counter := none, gauge := none,
      histogram := some { sampleSum := .finite 6000, sampleCount := 3,
                          bucket := [{ upperBound := .finite 500, cumulativeCount := 1 },
                                     { upperBound := .finite 1000, cumulativeCount := 2 },
                                     { upperBound := .posInf, cumulativeCount := 3 }] },
      summary := none }
    { sampleSum := .finite 6000, sampleCount := 3,
      bucket := [{ upperBound := .finite 500, cumulativeCount := 1 },
                 { upperBound := .finite 1000, cumulativeCount := 2 },
                 { upperBound := .posInf, cumulativeCount := 3 }] }
    rfl rfl rfl).2.1

/-- C2: a Summary metric with sample sum S, sample count C and n quantiles
converts to exactly `2 + n` points: the `_sum` point with value S, the
`_count` point with value `float64(C)`, and one point per quantile carrying
the extra `quantile` label with the formatted quantile, the quantile's value
as value, and a `__name__` label equal to the bare family name (no
suffix). -/
theorem summary_decomposition (metricName : String) (m : Metric) (s : Summary)
    (hc : m.counter = none) (hg : m.gauge = none) (hh : m.histogram = none)
    (hs : m.summary = some s) :
    part000.metricSeries metricName m =
      [{ labels := toLabels m.label ++
           [{ name := "__name__", value := metricName ++ "_sum" }],
         datapoint := { timestamp := unixNanos m.timestampMs, value := s.sampleSum } },
       { labels := toLabels m.label ++
           [{ name := "__name__", value := metricName ++ "_count" }],
         datapoint := { timestamp := unixNanos m.timestampMs,
                        value := uint64ToFloat64 s.sampleCount } }]
      ++ s.quantile.map (fun q =>
        { labels := toLabels m.label ++
            [{ name := "quantile", value := goFormatG q.quantile },
             { name := "__name__", value := metricName }],
          datapoint := { timestamp := unixNanos m.timestampMs, value := q.value } }) ∧
    (part000.metricSeries metricName m).length = 2 + s.quantile.length := by
  have heq : part000.metricSeries metricName m =
      [{ labels := toLabels m.label ++
           [{ name := "__name__", value := metricName ++ "_sum" }],
         datapoint := { timestamp := unixNanos m.timestampMs, value := s.sampleSum } },
       { labels := toLabels m.label ++
           [{ name := "__name__", value := metricName ++ "_count" }],
         datapoint := { timestamp := unixNanos m.timestampMs,
                        value := uint64ToFloat64 s.sampleCount } }]
      ++ s.quantile.map (fun q =>
        { labels := toLabels m.label ++
            [{ name := "quantile", value := goFormatG q.quantile },
             { name := "__name__", value := metricName }],
          datapoint := { timestamp := unixNanos m.timestampMs, value := q.value } }) := by
    simp [part000.metricSeries, hc, hg, hh, hs]
  refine ⟨heq, ?_⟩
  rw [heq]
  simp
  omega

/-- Witness for C2: a summary with two quantiles (0.5, 0.9) yields 2 + 2
points. -/
theorem summary_decomposition_witness :
    (part000.metricSeries "rpc_duration"
        { label := [], timestampMs := 0, counter := none, gauge := none,
          histogram := none,
          summary := some { sampleSum := .finite 17, sampleCount := 4,
                            quantile := [{ quantile := .finite (1/2), value := .finite 3 },
                                         { quantile := .finite (9/10), value := .finite 7 }] } }).length =
      2 + 2 :=
  (summary_decomposition "rpc_duration"
    { label := [], timestampMs := 0, counter := none, gauge := none,
      histogram := none,
      summary := some { sampleSum := .finite 17, sampleCount := 4,
                        quantile := [{ quantile := .finite (1/2), value := .finite 3 },
                                     { quantile := .finite (9/10), value := .finite 7 }] } }
    { sampleSum := .finite 17, sampleCount := 4,
      quantile := [{ quantile := .finite (1/2), value := .finite 3 },
                   { quantile := .finite (9/10), value := .finite 7 }] }
    rfl rfl rfl rfl).2

theorem mapLookup_part000_convert (n : String) (fams : List MetricFamily) :
    mapLookup n (part000.MetricFamiliesToTimeSeries fams) =
      match lastNamed n fams with
      | some g => some (part000.familySeries g.name g.metric)
      | none => none := by
  unfold part000.MetricFamiliesToTimeSeries
  rw [mapLookup_foldl_part000]
  cases lastNamed n fams <;> simp [mapLookup]

/-- C4: Convert never produces an error (it is a total function of the
snapshot); a family whose metric list is empty is bound to the empty point
sequence under its name (the binding for a name is the last family carrying
it, matching Go map writes); and a metric with no recognised payload kind
contributes zero points while the remaining metrics of its family still
convert. -/
theorem convert_fail_soft :
    (∀ (fams : List MetricFamily) (f : MetricFamily), f ∈ fams →
        ∃ s, mapLookup f.name (part000.MetricFamiliesToTimeSeries fams) = some s) ∧
    (∀ (fams : List MetricFamily) (n : String) (g : MetricFamily),
        lastNamed n fams = some g → g.metric = [] →
        mapLookup n (part000.MetricFamiliesToTimeSeries fams) = some []) ∧
    (∀ (n : String) (m : Metric), m.counter = none → m.gauge = none →
        m.histogram = none → m.summary = none → part000.metricSeries n m = []) ∧
    (∀ (n : String) (ms1 ms2 : List Metric) (mu : Metric),
        mu.counter = none → mu.gauge = none → mu.histogram = none →
        mu.summary = none →
        part000.familySeries n (ms1 ++ mu :: ms2) =
          part000.familySeries n (ms1 ++ ms2)) := by
  have hzero : ∀ (n : String) (m : Metric), m.counter = none → m.gauge = none →
      m.histogram = none → m.summary = none → part000.metricSeries n m = [] := by
    intro n m hc hg hh hs
    simp [part000.metricSeries, hc, hg, hh, hs]
  refine ⟨?_, ?_, hzero, ?_⟩
  · intro fams f hf
    rcases lastNamed_isSome_of_mem fams f hf with ⟨g, hg⟩
    refine ⟨part000.familySeries g.name g.metric, ?_⟩
    rw [mapLookup_part000_convert, hg]
  · intro fams n g hlast hnil
    rw [mapLookup_part000_convert, hlast]
    simp [part000.familySeries, hnil]
  · intro n ms1 ms2 mu hc hg hh hs
    simp [part000.familySeries, hzero n mu hc hg hh hs]

/-- Witness for C4: an empty family is bound to the empty sequence; an
untyped metric converts to no points; dropping it from a family leaves the
other metrics' points unchanged. -/
theorem convert_fail_soft_witness :
    mapLookup "empty_family" (part000.MetricFamiliesToTimeSeries
        [{ name := "empty_family", metric := [] }]) = some [] ∧
    part000.metricSeries "u"
      { label := [], timestampMs := 0, counter := none, gauge := none,
        histogram := none, summary := none } = [] ∧
    part000.familySeries "mixed"
        ([{ label := [], timestampMs := 0, counter := some (.finite 1),
            gauge := none, histogram := none, summary := none }] ++
          { label := [], timestampMs := 0, counter := none, gauge := none,
            histogram := none, summary := none } ::
          [{ label := [], timestampMs := 0, counter := some (.finite 2),
             gauge := none, histogram := none, summary := none }]) =
      part000.familySeries "mixed"
        ([{ label := [], timestampMs := 0, counter := some (.finite 1),
            gauge := none, histogram := none, summary := none }] ++
         [{ label := [], timestampMs := 0, counter := some (.finite 2),
            gauge := none, histogram := none, summary := none }]) := by
  refine ⟨?_, ?_, ?_⟩
  · exact convert_fail_soft.2.1 [{ name := "empty_family", metric := [] }]
      "empty_family" { name := "empty_family", metric := [] } (by decide) rfl
  · exact convert_fail_soft.2.2.1 "u" _ rfl rfl rfl rfl
  · exact convert_fail_soft.2.2.2 "mixed" _ _ _ rfl rfl rfl rfl

/-- C5 counterexample: a counter metric that already carries a `__name__`
label converts to a point with two `__name__` labels — the code appends the
injected name label without checking for a collision with the metric's own
labels. -/
theorem name_label_collision :
    (part000.metricSeries "some_metric"
        { label := [{ name := "__name__", value := "spoof" }], timestampMs := 0,
          counter := some (.finite 1), gauge := none, histogram := none,
          summary := none }).map
      (fun ts => (ts.labels.filter (fun l => l.name = "__name__")).length) = [2] := by
  decide

theorem labels_shape_invariant (base : List LabelPair) (extra : List Label)
    (hnodup : (base.map LabelPair.name).Nodup)
    (hres : ∀ p ∈ base, p.name ≠ "__name__" ∧ p.name ≠ "le" ∧ p.name ≠ "quantile")
    (hextra : extra.map Label.name = ["__name__"] ∨
              extra.map Label.name = ["le", "__name__"] ∨
              extra.map Label.name = ["quantile", "__name__"]) :
    ((toLabels base ++ extra).filter (fun l => l.name = "__name__")).length = 1 ∧
    ((toLabels base ++ extra).map Label.name).Nodup := by
  have hbase_names : (toLabels base).map Label.name = base.map LabelPair.name := by
    simp [toLabels, List.map_map]
  constructor
  · rw [← List.countP_eq_length_filter, List.countP_append]
    have h1 : (toLabels base).countP (fun l => l.name = "__name__") = 0 := by
      apply List.countP_eq_zero.mpr
      intro l hl
      rcases List.mem_map.mp hl with ⟨p, hp, rfl⟩
      simpa using (hres p hp).1
    have h2 : extra.countP (fun l => l.name = "__name__") = 1 := by
      have hmap : List.countP (fun x : String => x = "__name__") (extra.map Label.name) =
          extra.countP (fun l => l.name = "__name__") := List.countP_map _ _ _
      rw [← hmap]
      rcases hextra with h | h | h <;> rw [h] <;> decide
    rw [h1, h2]
  · rw [List.map_append, hbase_names, List.nodup_append]
    refine ⟨hnodup, ?_, ?_⟩
    · rcases hextra with h | h | h <;> rw [h] <;> decide
    · intro a ha hb
      rcases List.mem_map.mp ha with ⟨p, hp, rfl⟩
      rcases hres p hp with ⟨r1, r2, r3⟩
      rcases hextra with h | h | h <;> rw [h] at hb <;> simp at hb
      · exact r1 hb
      · rcases hb with hb | hb
        · exact r2 hb
        · exact r1 hb
      · rcases hb with hb | hb
        · exact r3 hb
        · exact r1 hb

/-- C5 (amended): provided each metric's label names are pairwise distinct
and none of them is one of the injected names `__name__`, `le`, `quantile`,
every TimeSeriesPoint Convert produces carries exactly one `__name__` label
and no duplicate label names.  Without that proviso the property fails: the
code appends its labels unconditionally (see the collision
counterexample). -/
theorem unique_name_label (fams : List MetricFamily)
    (hlab : ∀ f ∈ fams, ∀ m ∈ f.metric,
        (m.label.map LabelPair.name).Nodup ∧
        ∀ p ∈ m.label, p.name ≠ "__name__" ∧ p.name ≠ "le" ∧ p.name ≠ "quantile") :
    ∀ e ∈ part000.MetricFamiliesToTimeSeries fams, ∀ ts ∈ e.2,
      (ts.labels.filter (fun l => l.name = "__name__")).length = 1 ∧
      (ts.labels.map Label.name).Nodup := by
  intro e he ts hts
  unfold part000.MetricFamiliesToTimeSeries at he
  rcases mem_foldl_part000 fams [] e he with h0 | ⟨f, hf, hfe⟩
  · simp at h0
  · subst hfe
    simp only [part000.familySeries] at hts
    rw [List.mem_flatten] at hts
    rcases hts with ⟨l, hl, htsl⟩
    rcases List.mem_map.mp hl with ⟨m, hm, rfl⟩
    rcases part000_metricSeries_shape f.name m ts htsl with ⟨-, extra, hlabels, hextra⟩
    rcases hlab f hf m hm with ⟨hnodup, hres⟩
    rw [hlabels]
    exact labels_shape_invariant m.label extra hnodup hres hextra

/-- Witness for C5 (amended): a one-counter snapshot with a single `job`
label satisfies the proviso; the produced point carries one `__name__`
label and distinct label names. -/
theorem unique_name_label_witness :
    (([{ name := "job", value := "x" },
       { name := "__name__", value := "m" }] : List Label).filter
        (fun l => l.name = "__name__")).length = 1 ∧
    (([{ name := "job", value := "x" },
       { name := "__name__", value := "m" }] : List Label).map Label.name).Nodup :=
  unique_name_label
    [{ name := "m",
       metric := [{ label := [{ name := "job", value := "x" }], timestampMs := 0,
                    counter := some (.finite 1), gauge := none, histogram := none,
                    summary := none }] }]
    (by decide)
    ("m", [{ labels := [{ name := "job", value := "x" },
                        { name := "__name__", value := "m" }],
             datapoint := { timestamp := 0, value := .finite 1 } }])
    (by decide)
    { labels := [{ name := "job", value := "x" },
                 { name := "__name__", value := "m" }],
      datapoint := { timestamp := 0, value := .finite 1 } }
    (by decide)

end PromRemote
